import Mathlib

/-!
Verification development for the AI Task Picker Obsidian plugin.

The definitions below are a shallow embedding of the plugin's TypeScript
source: `utils.ts` (identifier utility), `blockId.ts` (block-id
synchronizer), `taskCollection.ts` (direct-scan id generator),
`priorities.ts` (priority extractor), `openai.ts` (ranking adapter),
`editor.ts` (cursor-anchored insertion helper) and the orchestrator command
in `main.ts`.  External collaborators (the vault, the metadata cache, the
random generator, `JSON.parse`, the HTTP response) are passed in explicitly
as values or functions.  Strings are Lean `String`s; JavaScript numbers that
hold line indices or counts are `Int`s with explicit 32-bit truncation where
the source uses `| 0`.
-/

namespace AiTaskPicker

/-! ### Character classes and basic string plumbing -/

/-- JavaScript whitespace (the `\s` regex class and `String.prototype.trim`):
space, tab, line/page separators, NBSP and the common Unicode space range. -/
def isJsWs (c : Char) : Bool :=
  c = ' ' || c = '\t' || c = '\n' || c = '\r' || c.val = 0x0b || c.val = 0x0c ||
  c.val = 0xa0 || c.val = 0x1680 ||
  (0x2000 ≤ c.val && c.val ≤ 0x200a) ||
  c.val = 0x2028 || c.val = 0x2029 || c.val = 0x202f || c.val = 0x205f ||
  c.val = 0x3000 || c.val = 0xfeff

/-- Drop leading and trailing JS whitespace from a character list. -/
def jsTrimList (cs : List Char) : List Char :=
  ((cs.dropWhile isJsWs).reverse.dropWhile isJsWs).reverse

/-- `String.prototype.trim`. -/
def jsTrim (s : String) : String :=
  String.mk (jsTrimList s.data)

/-- Drop trailing JS whitespace only (the `replace(/\s*$/, "")` idiom). -/
def trimTrailingWs (s : String) : String :=
  String.mk ((s.data.reverse.dropWhile isJsWs).reverse)

/-- Split a character list at every `'\n'`; always returns at least one
(possibly empty) chunk, like `String.prototype.split`. -/
def splitOnNl : List Char → List (List Char)
  | [] => [[]]
  | c :: rest =>
    if c = '\n' then [] :: splitOnNl rest
    else
      match splitOnNl rest with
      | [] => [[c]]
      | l :: ls => (c :: l) :: ls

/-- Remove a single trailing `'\r'` from a chunk, if present. -/
def dropOneTrailingCR (cs : List Char) : List Char :=
  match cs.reverse with
  | '\r' :: rest => rest.reverse
  | _ => cs

/-- Apply `f` to every element except the last one. -/
def mapAllButLast (f : List Char → List Char) : List (List Char) → List (List Char)
  | [] => []
  | [l] => [l]
  | l :: rest => f l :: mapAllButLast f rest

/-- `content.split(/\r?\n/)`: split at `'\n'`, folding a `"\r\n"` pair into a
single separator.  A carriage return not followed by a newline is kept. -/
def splitLines (s : String) : List String :=
  (mapAllButLast dropOneTrailingCR (splitOnNl s.data)).map String.mk

/-- `lines.join("\n")`. -/
def joinLines (lines : List String) : String :=
  String.intercalate "\n" lines

/-- Split at `'\n'` only (plain `text.split("\n")`). -/
def splitNlOnly (s : String) : List String :=
  (splitOnNl s.data).map String.mk

/-- ASCII lower-casing of a single character (`String.prototype.toLowerCase`
restricted to the character range the plugin's headings use). -/
def asciiLower (c : Char) : Char :=
  if 'A' ≤ c ∧ c ≤ 'Z' then Char.ofNat (c.val.toNat + 32) else c

/-! ### Identifier utility (`utils.ts`) -/

/-- `normalizeBlockId`: coerce an absent value to `""`, trim, strip a leading
run of carets and whitespace, trim again. -/
def normalizeBlockId (raw : Option String) : String :=
  let s := jsTrimList (raw.getD "").data
  let s := s.dropWhile (fun c => c = '^' || isJsWs c)
  String.mk (jsTrimList s)

/-- `normalizeBlockId` applied to a value that is always a string. -/
def normalizeBlockIdS (s : String) : String :=
  normalizeBlockId (some s)

/-- Does the path end in `.md`, case-insensitively (`/\.md$/i`)? -/
def endsInMd (path : String) : Bool :=
  match path.data.reverse with
  | d :: m :: dot :: _ =>
    (d = 'd' || d = 'D') && (m = 'm' || m = 'M') && dot = '.'
  | _ => false

/-- `ensureMd`: append the `.md` extension unless already present. -/
def ensureMd (path : String) : String :=
  if endsInMd path then path else path ++ ".md"

/-! ### Block-ID synchronizer (`blockId.ts`) -/

/-- The `[A-Za-z0-9\-_]` character class of the anchor-token regexes. -/
def isBlockIdChar (c : Char) : Bool :=
  ('A' ≤ c && c ≤ 'Z') || ('a' ≤ c && c ≤ 'z') || ('0' ≤ c && c ≤ '9') ||
  c = '-' || c = '_'

/-- The group captured by `line.match(/\^([A-Za-z0-9\-_]+)\s*$/)`: the maximal
nonempty run of id characters that ends the line (up to trailing whitespace)
and is immediately preceded by a caret. -/
def trailingBlockId (line : String) : Option String :=
  let r := line.data.reverse.dropWhile isJsWs
  let run := r.takeWhile isBlockIdChar
  let rest := r.dropWhile isBlockIdChar
  if run ≠ [] ∧ rest.head? = some '^' then some (String.mk run.reverse) else none

/-- All anchor tokens already present at line ends of a document
(the `existingIds` scan in `ensureBlockIdInBackgroundFile` and
`collectTasksFromFile`). -/
def documentBlockIds (content : String) : List String :=
  (splitLines content).filterMap trailingBlockId

/-- A task record as seen by the synchronizer: an optional pre-existing anchor
token (`task.blockLink`), a document path (`""` when absent or not a string)
and an optional line number (the `lineNumber ?? lineNr ?? line` chain). -/
structure TaskRef where
  blockLink : Option String
  path : String
  line : Option Int
deriving DecidableEq, Repr

/-- The vault collaborator: an association of document paths to full texts.
`vaultLookup` models `app.vault.getAbstractFileByPath` succeeding with a
`TFile` exactly when the path is present. -/
def vaultLookup : List (String × String) → String → Option String
  | [], _ => none
  | e :: rest, p => if e.1 = p then some e.2 else vaultLookup rest p

/-- One write performed through `app.vault.modify`: target path and new text. -/
abbrev VaultWrite := String × String

/-- Replace the text stored for `p` (or append it), used to carry a vault
across the writes of one synchronizer call. -/
def vaultSet : List (String × String) → String → String → List (String × String)
  | [], p, c => [(p, c)]
  | e :: rest, p, c => if e.1 = p then (p, c) :: rest else e :: vaultSet rest p c

/-- Apply a list of `vault.modify` writes to a vault, in order. -/
def applyWrites (vault : List (String × String)) (writes : List VaultWrite) :
    List (String × String) :=
  writes.foldl (fun v w => vaultSet v w.1 w.2) vault

/-- One draw of ``` `t-${Math.random().toString(36).slice(2, 8)}` ```, with the
random generator modelled as a stream `rng` of suffixes and `k` the index of
the draw within the call. -/
def freshToken (rng : Nat → String) (k : Nat) : String :=
  "t-" ++ rng k

/-- The generation loop of the synchronizer: draw candidates until one is not
among `existingIds`.  `fuel` bounds the number of draws (the source loops
unboundedly; exhausting the fuel returns `none`). -/
def pickFreshId (rng : Nat → String) (existingIds : List String) :
    Nat → Nat → Option String
  | _, 0 => none
  | k, fuel + 1 =>
    let candidate := freshToken rng k
    if candidate ∈ existingIds then pickFreshId rng existingIds (k + 1) fuel
    else some candidate

/-- The index of the target line: `Math.min(Math.max(0, lineNumber),
Math.max(0, lines.length - 1))` with `lineNumber = Math.max(0, rawLine)`. -/
def targetLineIndex (content : String) (rawLine : Int) : Nat :=
  let lines := splitLines content
  (min (max 0 (max 0 rawLine)) (max 0 ((lines.length : Int) - 1))).toNat

/-- The target line itself (`lines[lineIndex] ?? ""`). -/
def targetLineOf (content : String) (rawLine : Int) : String :=
  (splitLines content).getD (targetLineIndex content rawLine) ""

/-- `ensureBlockIdInBackgroundFile` from `blockId.ts`.  Returns the anchor
token and the list of `vault.modify` calls performed (`none` only when the
generation loop exhausts its fuel).  The `waitForBlockIndexed` polls read the
metadata cache and perform no writes, so they are omitted. -/
def ensureBlockIdInBackgroundFile (rng : Nat → String) (fuel : Nat)
    (vault : List (String × String)) (task : TaskRef)
    (activeFile : Option String) : Option (String × List VaultWrite) :=
  let existing := normalizeBlockId task.blockLink
  if existing ≠ "" then some (existing, [])
  else if task.path = "" then some (freshToken rng 0, [])
  else match task.line with
  | none => some (freshToken rng 0, [])
  | some rawLine =>
    match vaultLookup vault task.path with
    | none => some (freshToken rng 0, [])
    | some content =>
      -- SAFETY: Never modify the active file
      if activeFile = some task.path then some (freshToken rng 0, [])
      else
        let lines := splitLines content
        let lineIndex := targetLineIndex content rawLine
        let currentLine := lines.getD lineIndex ""
        match trailingBlockId currentLine with
        | some existingId => some (existingId, [])
        | none =>
          let existingIds := documentBlockIds content
          match pickFreshId rng existingIds 0 fuel with
          | none => none
          | some generatedId =>
            let newLine := trimTrailingWs currentLine ++ "  ^" ++ generatedId
            let newLines := lines.set lineIndex newLine
            some (generatedId, [(task.path, joinLines newLines)])

/-! ### Direct-scan id generation (`taskCollection.ts`) -/

/-- `generateUniqueTaskBlockId`: draw candidates until one misses the shared
`existingIds` set, add the winner to the set and return both.  `fuel` bounds
the draws as above. -/
def generateUniqueTaskBlockId (rng : Nat → String) :
    Nat → Nat → List String → Option (String × List String)
  | _, 0, _ => none
  | k, fuel + 1, existingIds =>
    let candidate := freshToken rng k
    if candidate ∈ existingIds then
      generateUniqueTaskBlockId rng (k + 1) fuel existingIds
    else some (candidate, candidate :: existingIds)

/-- `n` successive calls of `generateUniqueTaskBlockId` against the shared,
threaded `existingIds` set.  `rng i` is the candidate stream of the `i`-th
call (each call draws fresh randomness). -/
def generateManyBlockIds :
    (Nat → Nat → String) → Nat → Nat → List String →
      Option (List String × List String)
  | _, _, 0, existingIds => some ([], existingIds)
  | rng, fuel, n + 1, existingIds =>
    match generateUniqueTaskBlockId (rng 0) 0 fuel existingIds with
    | none => none
    | some (c, grown) =>
      match generateManyBlockIds (fun i => rng (i + 1)) fuel n grown with
      | none => none
      | some (rest, finalIds) => some (c :: rest, finalIds)

/-! ### Priority extractor (`priorities.ts`) -/

/-- The `[\p{Emoji_Presentation}\p{Extended_Pictographic}\p{Symbol}]` class of
the leading-strip regex in `normalizeHeadingText`, rendered over the Unicode
blocks the plugin's headings can contain: the emoji/pictographic planes, the
arrow/mathematical/misc-symbol blocks, the dingbats, the variation selector,
and the ASCII characters of general category S. -/
def isSymbolOrPicto (c : Char) : Bool :=
  let v := c.val
  (0x1f000 ≤ v && v ≤ 0x1faff) ||
  (0x2190 ≤ v && v ≤ 0x2bff) ||
  (0x2600 ≤ v && v ≤ 0x27bf) ||
  v = 0xfe0f || v = 0x2122 || v = 0xa9 || v = 0xae ||
  c = '+' || c = '<' || c = '=' || c = '>' || c = '|' || c = '~' ||
  c = '$' || c = '^' || c = '`'

/-- Does the remainder of the heading close a parenthetical at its very end:
at least one character, then `')'`, then only whitespace? -/
def closesParenAtEnd (suffix : List Char) : Bool :=
  match suffix.reverse.dropWhile isJsWs with
  | ')' :: mid => decide (mid.length ≥ 1)
  | _ => false

/-- `replace(/\(.+?\)\s*$/g, "")`: if the text ends (after optional
whitespace) with a parenthesized group holding at least one character, the
whole tail starting at the first such `'('` is removed. -/
def removeTrailingParenthetical : List Char → List Char
  | [] => []
  | c :: rest =>
    if c = '(' ∧ closesParenAtEnd rest then []
    else c :: removeTrailingParenthetical rest

/-- `replace(/\+/g, " plus ")`. -/
def expandPlus : List Char → List Char
  | [] => []
  | '+' :: rest => ' ' :: 'p' :: 'l' :: 'u' :: 's' :: ' ' :: expandPlus rest
  | c :: rest => c :: expandPlus rest

/-- The apostrophe/backtick/quote class removed by `normalizeHeadingText`
(the source file holds two ASCII apostrophes, a backtick and a double
quote). -/
def isQuoteChar (c : Char) : Bool :=
  c = '\x27' || c = '`' || c = '"' || c.val = 0x2019

/-- The `[.:•\-–—]` class folded to a space by `normalizeHeadingText`. -/
def isFoldedPunct (c : Char) : Bool :=
  c = '.' || c = ':' || c.val = 0x2022 || c = '-' || c.val = 0x2013 ||
  c.val = 0x2014

/-- Collapse each run of consecutive spaces to a single space. -/
def squeezeSpaces : List Char → List Char
  | [] => []
  | [c] => [c]
  | c :: d :: rest =>
    if c = ' ' ∧ d = ' ' then squeezeSpaces (d :: rest)
    else c :: squeezeSpaces (d :: rest)

/-- `replace(/\s+/g, " ")`: each whitespace run becomes a single space
(every whitespace character is first mapped to a plain space, then runs are
squeezed). -/
def collapseWs (cs : List Char) : List Char :=
  squeezeSpaces (cs.map (fun c => if isJsWs c then ' ' else c))

/-- `normalizeHeadingText` from `priorities.ts`: strip a leading run of
emoji/symbol/whitespace characters, drop a trailing parenthetical, expand
`+`, delete quote characters, fold listed punctuation to spaces, lowercase,
trim and collapse whitespace. -/
def normalizeHeadingText (text : String) : String :=
  let cs := text.data.dropWhile (fun c => isSymbolOrPicto c || isJsWs c)
  let cs := removeTrailingParenthetical cs
  let cs := expandPlus cs
  let cs := cs.filter (fun c => !isQuoteChar c)
  let cs := cs.map (fun c => if isFoldedPunct c then ' ' else c)
  let cs := cs.map asciiLower
  String.mk (collapseWs (jsTrimList cs))

/-- `/^\s*([-*_])\1{2,}\s*$/`: after trimming, a run of at least three
repetitions of a single character drawn from `-`, `*`, `_`. -/
def isHorizontalRule (line : String) : Bool :=
  match jsTrimList line.data with
  | [] => false
  | c :: rest =>
    (c = '-' || c = '*' || c = '_') && decide ((c :: rest).length ≥ 3) &&
      rest.all (fun x => x = c)

/-- `line.match(/^(#{1,6})\s+(.*)$/)`: one to six leading hashes followed by
at least one whitespace character; yields the depth and the text after the
maximal whitespace run. -/
def headingMatch (line : String) : Option (Nat × String) :=
  let hashes := line.data.takeWhile (fun c => c = '#')
  let rest := line.data.dropWhile (fun c => c = '#')
  if 1 ≤ hashes.length ∧ hashes.length ≤ 6 ∧ rest.head?.any isJsWs then
    some (hashes.length, String.mk (rest.dropWhile isJsWs))
  else none

/-- The scan for the first heading line whose normalized text equals the
normalized desired heading; yields the line index and the heading depth. -/
def findFirstHeading (desiredHeading : String) :
    List String → Nat → Option (Nat × Nat)
  | [], _ => none
  | l :: rest, i =>
    match headingMatch l with
    | some (depth, text) =>
      if normalizeHeadingText text = normalizeHeadingText desiredHeading then
        some (i, depth)
      else findFirstHeading desiredHeading rest (i + 1)
    | none => findFirstHeading desiredHeading rest (i + 1)

/-- Is the line blank after trimming? -/
def isBlankLine (l : String) : Bool :=
  jsTrim l = ""

/-- The accumulation loop of `extractPrioritiesFromFile`: stop at a
horizontal rule or at a heading of depth at most `startDepth`; skip blank
lines until the first non-blank one (`seenNonBlank`). -/
def collectSection (startDepth : Nat) : List String → Bool → List String
  | [], _ => []
  | l :: rest, seenNonBlank =>
    if isHorizontalRule l then []
    else if (headingMatch l).any (fun m => m.1 ≤ startDepth) then []
    else if !seenNonBlank && isBlankLine l then
      collectSection startDepth rest seenNonBlank
    else l :: collectSection startDepth rest true

/-- Drop leading blank lines. -/
def dropLeadingBlankLines (ls : List String) : List String :=
  ls.dropWhile isBlankLine

/-- The trailing `while (buffer.length > 0 && ...trim() === "") buffer.pop()`
loop. -/
def dropTrailingBlankLines (ls : List String) : List String :=
  (ls.reverse.dropWhile isBlankLine).reverse

/-- `extractPrioritiesFromFile` from `priorities.ts`, with the document text
(the result of `app.vault.read`) passed in directly. -/
def extractPrioritiesFromFile (content desiredHeading : String) : String :=
  let lines := splitLines content
  match findFirstHeading desiredHeading lines 0 with
  | none => ""
  | some (start, startDepth) =>
    let buffer := collectSection startDepth (lines.drop (start + 1)) false
    joinLines (dropTrailingBlankLines buffer)

/-- Modelled from the spec: a section-terminating line — "a horizontal-rule
line, or a heading line whose depth ... is less than or equal to the matched
heading's depth".  Used to state the boundary property the loop above is
compared against. -/
def isStopLine (startDepth : Nat) (l : String) : Bool :=
  isHorizontalRule l || (headingMatch l).any (fun m => m.1 ≤ startDepth)

/-! ### Ranking adapter (`openai.ts`) -/

/-- A JSON value, as produced by the external `JSON.parse` collaborator.
Numbers are restricted to the integers the ranking responses contain. -/
inductive Json where
  | null : Json
  | bool : Bool → Json
  | num : Int → Json
  | str : String → Json
  | arr : List Json → Json
  | obj : List (String × Json) → Json

/-- Property lookup on a JSON object (`parsed?.key`); duplicate keys resolve
to the last occurrence, as in JavaScript. -/
def jsGet (j : Json) (key : String) : Option Json :=
  match j with
  | Json.obj fields => fields.foldl (fun acc f => if f.1 = key then some f.2 else acc) none
  | _ => none

mutual

/-- `String(x)` coercion of an array element inside `Array.prototype.join`
(`null` renders as the empty string there). -/
def jsArrayElemString : Json → String
  | Json.null => ""
  | Json.bool b => if b then "true" else "false"
  | Json.num n => toString n
  | Json.str s => s
  | Json.arr xs => String.intercalate "," (jsArrayElemStrings xs)
  | Json.obj _ => "[object Object]"

/-- The element-wise coercion of `Array.prototype.join`. -/
def jsArrayElemStrings : List Json → List String
  | [] => []
  | x :: rest => jsArrayElemString x :: jsArrayElemStrings rest

end

/-- The JavaScript `String(x)` coercion applied to each ranked id. -/
def jsString : Json → String
  | Json.null => "null"
  | Json.bool b => if b then "true" else "false"
  | Json.num n => toString n
  | Json.str s => s
  | Json.arr xs => String.intercalate "," (jsArrayElemStrings xs)
  | Json.obj _ => "[object Object]"

/-- `content.replace(/^\s*```(?:json)?/i, "")`: drop leading whitespace, a
fence of three backticks and an optional case-insensitive `json` tag, when
present. -/
def stripLeadingFence (s : String) : String :=
  let cs := s.data
  let afterWs := cs.dropWhile isJsWs
  match afterWs with
  | '`' :: '`' :: '`' :: rest =>
    match rest.map asciiLower with
    | 'j' :: 's' :: 'o' :: 'n' :: _ => String.mk (rest.drop 4)
    | _ => String.mk rest
  | _ => s

/-- `content.replace(/```\s*$/i, "")`: drop a closing three-backtick fence
followed only by whitespace, when present. -/
def stripTrailingFence (s : String) : String :=
  let r := s.data.reverse.dropWhile isJsWs
  match r with
  | '`' :: '`' :: '`' :: rest => String.mk rest.reverse
  | _ => s

/-- The full fence-stripping-and-trim pipeline applied before `JSON.parse`. -/
def stripFences (s : String) : String :=
  jsTrim (stripTrailingFence (stripLeadingFence s))

/-- The HTTP response of the ranking service, abstracted: success flag,
status code, error body text, and the parsed JSON body (`none` models the
`.catch(() => null)` fallback of `response.json()`). -/
structure RankResponse where
  ok : Bool
  status : Nat
  errorText : String
  body : Option Json

/-- `json?.choices?.[0]?.message?.content ?? ""` (a non-string content is
collapsed to `""`; the service contract makes it a string). -/
def contentOfBody (j : Json) : String :=
  match jsGet j "choices" with
  | some (Json.arr (c0 :: _)) =>
    match jsGet c0 "message" with
    | some msg =>
      match jsGet msg "content" with
      | some (Json.str s) => s
      | _ => ""
    | none => ""
  | _ => ""

/-- The content field extracted from a response. -/
def contentOfResponse (resp : RankResponse) : String :=
  contentOfBody (resp.body.getD Json.null)

/-- `JSON.parse` of the fence-stripped content, with the
`let parsed = {}; try ... catch` fallback to the empty object. -/
def parsedOfContent (jsonParse : String → Option Json) (content : String) : Json :=
  (jsonParse (stripFences content)).getD (Json.obj [])

/-- `Array.isArray(parsed?.ranked_task_ids) ? ...map(String) : []`. -/
def rankedIdsOfJson (parsed : Json) : List String :=
  match jsGet parsed "ranked_task_ids" with
  | some (Json.arr xs) => xs.map jsString
  | _ => []

/-- 32-bit truncation of `maxTasks | 0`. -/
def toInt32 (n : Int) : Int :=
  (n + 2 ^ 31) % 2 ^ 32 - 2 ^ 31

/-- The slice bound `Math.max(0, maxTasks | 0)`. -/
def jsSliceBound (maxTasks : Int) : Nat :=
  (max 0 (toInt32 maxTasks)).toNat

/-- A task item as consumed by the ranking adapter and the orchestrator
(only the fields the embedding needs: anchor id and owning note path). -/
structure TaskItem where
  id : String
  note : String
deriving DecidableEq, Repr

/-- `callOpenAIRank` from `openai.ts`.  The network exchange is abstracted
into the `resp` argument and `JSON.parse` into `jsonParse`; `tasks` enters
the request payload only, and `Except.error` models a thrown `Error`. -/
def callOpenAIRank (jsonParse : String → Option Json) (apiKey : String)
    (resp : RankResponse) (tasks : List TaskItem) (maxTasks : Int) :
    Except String (List String) :=
  if apiKey = "" then Except.error "OpenAI API key is not set."
  else if resp.ok = false then
    Except.error (if resp.errorText = "" then "OpenAI error " ++ toString resp.status
      else resp.errorText)
  else
    let _payloadTasks := tasks
    let content := contentOfResponse resp
    let rankedIds := rankedIdsOfJson (parsedOfContent jsonParse content)
    Except.ok (rankedIds.take (jsSliceBound maxTasks))

/-! ### Orchestrator (`main.ts`) and insertion helper (`editor.ts`) -/

/-- `new Map(tasks.map(...)).get(key)`: association lookup where a later
entry with the same key overwrites an earlier one. -/
def jsMapGet (entries : List (String × TaskItem)) (key : String) : Option TaskItem :=
  entries.foldl (fun acc e => if e.1 = key then some e.2 else acc) none

/-- One embed reference string: `![[${ensureMd(task.note)}#^${blockId}]]`. -/
def taskEmbed (note blockId : String) : String :=
  "![[" ++ ensureMd note ++ "#^" ++ blockId ++ "]]"

/-- The per-ranked-id index-confirmation check of the orchestrator: skip the
id only when its note resolves to a file and the metadata cache (`cache`,
path ↦ indexed block ids) does not list the block. -/
def indexCheckPasses (vaultPaths : List String) (cache : String → List String)
    (note blockId : String) : Bool :=
  !(note ∈ vaultPaths && !(blockId ∈ cache note))

/-- The ranked-ids-to-embeds loop of the orchestrator command: normalize each
ranked id, look it up among the known tasks, skip silently when unknown, skip
when the anchor is unconfirmed, and emit one embed per survivor. -/
def buildTaskEmbeds (vaultPaths : List String) (cache : String → List String)
    (tasks : List TaskItem) (rankedIds : List String) : List String :=
  let tasksById := tasks.map (fun t => (normalizeBlockIdS t.id, t))
  rankedIds.filterMap (fun rawId =>
    let blockId := normalizeBlockIdS rawId
    match jsMapGet tasksById blockId with
    | none => none
    | some task =>
      if indexCheckPasses vaultPaths cache task.note blockId then
        some (taskEmbed task.note blockId)
      else none)

/-- The decidable form of the index-confirmation hypothesis for a ranked-id
list: every ranked id that resolves to a known task passes the check. -/
def allRankedIdsConfirmed (vaultPaths : List String)
    (cache : String → List String) (tasks : List TaskItem)
    (rankedIds : List String) : Bool :=
  rankedIds.all (fun rawId =>
    let blockId := normalizeBlockIdS rawId
    match jsMapGet (tasks.map (fun t => (normalizeBlockIdS t.id, t))) blockId with
    | none => true
    | some task => indexCheckPasses vaultPaths cache task.note blockId)

/-- The post-collection safeguard:
`if (editor.getValue() !== initialContent) editor.setValue(initialContent)`.
Returns the document text after the conditional restore. -/
def restoreIfMutated (initialContent current : String) : String :=
  if current ≠ initialContent then initialContent else current

/-- The active document's text at the priorities-extraction step of one
orchestrator run: the snapshot `initialContent` is captured before the count
prompt, the collection step transforms the document by an arbitrary
out-of-band effect `collectEffect`, and the safeguard then runs. -/
def docAtPrioritiesStep (initialContent : String)
    (collectEffect : String → String) : String :=
  restoreIfMutated initialContent (collectEffect initialContent)

/-- A cursor position as handed to the insertion helper; both coordinates
may be arbitrary (stale or out of range). -/
structure EditorPosition where
  line : Int
  ch : Int
deriving DecidableEq, Repr

/-- The clamping of `insertTextAtCursor`: the line index to
`[0, lineCount - 1]` and the character offset to `[0, lineLength]` of the
clamped line. -/
def validatedInsertPosition (docLines : List String) (pos : EditorPosition) :
    Int × Int :=
  let lineCount : Int := (docLines.length : Int)
  let validatedLine : Int := min (max 0 pos.line) (lineCount - 1)
  let lineLength : Int := ((docLines.getD validatedLine.toNat "").length : Int)
  let validatedChar : Int := min (max 0 pos.ch) lineLength
  (validatedLine, validatedChar)

/-- `insertTextAtCursor` from `editor.ts`: returns the clamped insert
position actually passed to `editor.replaceRange` and the end cursor position
passed to `editor.setCursor`. -/
def insertTextAtCursor (docLines : List String) (pos : EditorPosition)
    (text : String) : (Int × Int) × EditorPosition :=
  let p := validatedInsertPosition docLines pos
  let insertedLines := splitNlOnly text
  let endLine := p.1 + (insertedLines.length : Int) - 1
  let lastLine := (insertedLines.getLast? ).getD ""
  let endChar : Int :=
    if insertedLines.length = 1 then p.2 + (text.length : Int)
    else (lastLine.length : Int)
  (p, ⟨endLine, endChar⟩)

/-! ## Theorems -/

/-- Claim C2: in one orchestrator run, after the task-collection step and
before priorities extraction, the target document's text is compared to the
snapshot captured before the count prompt and overwritten with it when
different, so at the priorities-extraction step the document's text always
equals the snapshot — whatever mutation the collection step caused. -/
theorem docAtPrioritiesStep_eq_snapshot (initialContent : String)
    (collectEffect : String → String) :
    docAtPrioritiesStep initialContent collectEffect = initialContent := by
  unfold docAtPrioritiesStep restoreIfMutated
  by_cases h : collectEffect initialContent ≠ initialContent
  · simp [h]
  · simp only [ne_eq, not_not] at h
    simp [h]

/-- Claim C6, counterexample: heading normalization deletes the apostrophe,
so `"🎯 Next Week's Priorities"` normalizes to `"next weeks priorities"`
while the claimed desired heading `"Next Week Priorities"` normalizes to
`"next week priorities"` — the two normalized strings differ, and the
document heading line is not matched for that desired heading. -/
theorem normalizeHeading_c6_counterexample :
    normalizeHeadingText "🎯 Next Week\x27s Priorities" ≠
      normalizeHeadingText "Next Week Priorities" ∧
    extractPrioritiesFromFile "## 🎯 Next Week\x27s Priorities\nShip the report"
      "Next Week Priorities" = "" := by
  decide

/-- Claim C6 (amended): heading normalization maps the heading text
`"🎯 Next Week's Priorities"` and the desired heading string
`"Next Week's Priorities"` (the plugin's default setting) to the same
normalized string `"next weeks priorities"`, so the document heading line
`"## 🎯 Next Week's Priorities"` is matched when the configured desired
heading is `"Next Week's Priorities"`. -/
theorem normalizeHeading_matches_default :
    normalizeHeadingText "🎯 Next Week\x27s Priorities" =
      normalizeHeadingText "Next Week\x27s Priorities" ∧
    normalizeHeadingText "🎯 Next Week\x27s Priorities" = "next weeks priorities" ∧
    extractPrioritiesFromFile "## 🎯 Next Week\x27s Priorities\nShip the report"
      "Next Week\x27s Priorities" = "Ship the report" := by
  decide

/-- Claim C9: when the ranking response is successful but its content field
cannot be parsed as JSON — neither directly nor after stripping the fenced
code marker — `callOpenAIRank` returns an empty id list instead of raising. -/
theorem callOpenAIRank_parse_failure_empty
    (jsonParse : String → Option Json) (apiKey : String) (resp : RankResponse)
    (tasks : List TaskItem) (maxTasks : Int)
    (hkey : apiKey ≠ "") (hok : resp.ok = true)
    (hdirect : jsonParse (contentOfResponse resp) = none)
    (hstripped : jsonParse (stripFences (contentOfResponse resp)) = none) :
    callOpenAIRank jsonParse apiKey resp tasks maxTasks = Except.ok [] := by
  unfold callOpenAIRank
  rw [if_neg hkey, hok]
  simp [parsedOfContent, hstripped, rankedIdsOfJson, jsGet]

/-- Witness for C9 at a concrete unparseable response. -/
theorem callOpenAIRank_parse_failure_empty_witness :
    callOpenAIRank (fun _ => none) "sk"
      ⟨true, 200, "",
        some (Json.obj [("choices", Json.arr [Json.obj [("message",
          Json.obj [("content", Json.str "definitely not json")])]])])⟩
      [] 3 = Except.ok [] :=
  callOpenAIRank_parse_failure_empty (fun _ => none) "sk" _ [] 3
    (by decide) rfl rfl rfl

/-- Claim C10: the insertion helper clamps every cursor position — including
out-of-range ones — to the document before inserting: the line index lands in
`[0, lineCount - 1]` and the character offset in `[0, length of the clamped
line]`, so the insertion always addresses a valid position. -/
theorem insertTextAtCursor_clamps (docLines : List String)
    (pos : EditorPosition) (text : String) (h : docLines ≠ []) :
    (insertTextAtCursor docLines pos text).1 = validatedInsertPosition docLines pos ∧
    0 ≤ (validatedInsertPosition docLines pos).1 ∧
    (validatedInsertPosition docLines pos).1 < (docLines.length : Int) ∧
    0 ≤ (validatedInsertPosition docLines pos).2 ∧
    (validatedInsertPosition docLines pos).2 ≤
      ((docLines.getD (validatedInsertPosition docLines pos).1.toNat "").length : Int) := by
  have hlen : 0 < docLines.length := List.length_pos.mpr h
  refine ⟨rfl, ?_, ?_, ?_, ?_⟩
  · exact le_min (le_max_left 0 _) (by omega)
  · exact lt_of_le_of_lt (min_le_right _ _) (by omega)
  · exact le_min (le_max_left 0 _) (Int.ofNat_nonneg _)
  · exact min_le_right _ _

/-- Witness for C10 at an out-of-range cursor position. -/
theorem insertTextAtCursor_clamps_witness :
    (insertTextAtCursor ["ab", "c"] ⟨100, -7⟩ "x\ny").1 =
      validatedInsertPosition ["ab", "c"] ⟨100, -7⟩ ∧
    0 ≤ (validatedInsertPosition ["ab", "c"] ⟨100, -7⟩).1 ∧
    (validatedInsertPosition ["ab", "c"] ⟨100, -7⟩).1 < ((["ab", "c"] : List String).length : Int) ∧
    0 ≤ (validatedInsertPosition ["ab", "c"] ⟨100, -7⟩).2 ∧
    (validatedInsertPosition ["ab", "c"] ⟨100, -7⟩).2 ≤
      (((["ab", "c"] : List String).getD (validatedInsertPosition ["ab", "c"] ⟨100, -7⟩).1.toNat "").length : Int) :=
  insertTextAtCursor_clamps ["ab", "c"] ⟨100, -7⟩ "x\ny" (by decide)

/-- Claim C1, counterexample: a task reference that already carries an anchor
token through `blockLink` and whose path resolves to the currently active
document makes the synchronizer return that pre-existing (persisted) token —
not a freshly generated one — so the claim's "returns a freshly generated,
unpersisted token" fails as stated for such references (no write happens,
though). -/
theorem ensureBlockId_c1_counterexample :
    vaultLookup [("a.md", "- [ ] hi")] "a.md" = some "- [ ] hi" ∧
    ensureBlockIdInBackgroundFile (fun _ => "zzzzzz") 5 [("a.md", "- [ ] hi")]
      ⟨some "^abc", "a.md", some 0⟩ (some "a.md") = some ("abc", []) ∧
    ("abc" : String) ≠ freshToken (fun _ => "zzzzzz") 0 := by
  decide

/-- Claim C1 (amended): for every task reference that carries no pre-existing
normalized anchor token and whose document is the currently active one, the
synchronizer returns a freshly generated, unpersisted token and performs no
`vault.modify` write — regardless of vault contents, line number or fuel. -/
theorem ensureBlockId_active_file_guard (rng : Nat → String) (fuel : Nat)
    (vault : List (String × String)) (task : TaskRef)
    (hlink : normalizeBlockId task.blockLink = "") :
    ensureBlockIdInBackgroundFile rng fuel vault task (some task.path) =
      some (freshToken rng 0, []) := by
  unfold ensureBlockIdInBackgroundFile
  rw [hlink]
  simp only [ne_eq, not_true_eq_false, if_false]
  by_cases hp : task.path = ""
  · simp [hp]
  · simp only [hp, if_false]
    cases task.line with
    | none => rfl
    | some rawLine =>
      cases vaultLookup vault task.path with
      | none => rfl
      | some content => simp

/-- Witness for the amended C1 at a concrete task located in the active
document. -/
theorem ensureBlockId_active_file_guard_witness :
    ensureBlockIdInBackgroundFile (fun _ => "aaaaaa") 3 [("n.md", "- [ ] x")]
      ⟨none, "n.md", some 2⟩ (some "n.md") = some ("t-aaaaaa", []) :=
  ensureBlockId_active_file_guard (fun _ => "aaaaaa") 3 [("n.md", "- [ ] x")]
    ⟨none, "n.md", some 2⟩ (by decide)

/-- Claim C4: running the synchronizer twice on the same task whose target
line already ends with an anchor-marker token returns that token both times
and performs zero `vault.modify` writes on either run — in particular the
second run, on the unchanged vault and with fresh randomness, returns the
same token and writes nothing. -/
theorem ensureBlockId_idempotent_tokened_line
    (rng₁ rng₂ : Nat → String) (fuel₁ fuel₂ : Nat)
    (vault : List (String × String)) (task : TaskRef)
    (activeFile : Option String) (rawLine : Int) (content id : String)
    (hlink : normalizeBlockId task.blockLink = "")
    (hpath : task.path ≠ "")
    (hline : task.line = some rawLine)
    (hvault : vaultLookup vault task.path = some content)
    (hactive : activeFile ≠ some task.path)
    (htok : trailingBlockId (targetLineOf content rawLine) = some id) :
    ensureBlockIdInBackgroundFile rng₁ fuel₁ vault task activeFile = some (id, []) ∧
    ensureBlockIdInBackgroundFile rng₂ fuel₂ (applyWrites vault []) task activeFile =
      some (id, []) := by
  have key : ∀ (rng : Nat → String) (fuel : Nat),
      ensureBlockIdInBackgroundFile rng fuel vault task activeFile = some (id, []) := by
    intro rng fuel
    unfold ensureBlockIdInBackgroundFile
    rw [hlink]
    simp only [ne_eq, not_true_eq_false, if_false, hpath, hline, hvault,
      if_neg hactive]
    have hcur : (splitLines content).getD (targetLineIndex content rawLine) "" =
        targetLineOf content rawLine := rfl
    rw [hcur, htok]
  exact ⟨key rng₁ fuel₁, key rng₂ fuel₂⟩

/-- Witness for C4 at a concrete background file whose line 0 already carries
`^t-abc123`. -/
theorem ensureBlockId_idempotent_tokened_line_witness :
    ensureBlockIdInBackgroundFile (fun _ => "qqqqqq") 3
      [("bg.md", "- [ ] x  ^t-abc123")] ⟨none, "bg.md", some 0⟩
      (some "active.md") = some ("t-abc123", []) ∧
    ensureBlockIdInBackgroundFile (fun _ => "rrrrrr") 7
      (applyWrites [("bg.md", "- [ ] x  ^t-abc123")] []) ⟨none, "bg.md", some 0⟩
      (some "active.md") = some ("t-abc123", []) :=
  ensureBlockId_idempotent_tokened_line (fun _ => "qqqqqq") (fun _ => "rrrrrr")
    3 7 [("bg.md", "- [ ] x  ^t-abc123")] ⟨none, "bg.md", some 0⟩
    (some "active.md") 0 "- [ ] x  ^t-abc123" "t-abc123"
    (by decide) (by decide) rfl (by decide) (by decide) (by decide)

/-- Helper: a successful single generation yields a candidate outside the
existing set and returns the set grown by exactly that candidate. -/
theorem generateUnique_spec (rng : Nat → String) :
    ∀ (fuel k : Nat) (existingIds : List String) (c : String) (grown : List String),
      generateUniqueTaskBlockId rng k fuel existingIds = some (c, grown) →
      c ∉ existingIds ∧ grown = c :: existingIds := by
  intro fuel
  induction fuel with
  | zero =>
    intro k ex c g h
    simp [generateUniqueTaskBlockId] at h
  | succ n ih =>
    intro k ex c g h
    unfold generateUniqueTaskBlockId at h
    by_cases hc : freshToken rng k ∈ ex
    · rw [if_pos hc] at h
      exact ih (k + 1) ex c g h
    · rw [if_neg hc] at h
      obtain ⟨hc1, hg⟩ := Prod.mk.injEq .. ▸ Option.some.inj h
      subst hc1
      exact ⟨hc, hg.symm ▸ rfl⟩

/-- Helper: a successful run of `n` shared-set generations yields `n` tokens,
all outside the initial set, pairwise distinct, and the final set is the
initial one extended by exactly those tokens. -/
theorem generateMany_spec :
    ∀ (n : Nat) (rng : Nat → Nat → String) (fuel : Nat) (S toks finalIds : List String),
      generateManyBlockIds rng fuel n S = some (toks, finalIds) →
      toks.length = n ∧ (∀ t ∈ toks, t ∉ S) ∧ toks.Nodup ∧
        finalIds = toks.reverse ++ S := by
  intro n
  induction n with
  | zero =>
    intro rng fuel S toks finalIds h
    simp [generateManyBlockIds] at h
    obtain ⟨h1, h2⟩ := h
    subst h1; subst h2
    simp
  | succ m ih =>
    intro rng fuel S toks finalIds h
    unfold generateManyBlockIds at h
    cases h1 : generateUniqueTaskBlockId (rng 0) 0 fuel S with
    | none => rw [h1] at h; cases h
    | some cg =>
      obtain ⟨c, grown⟩ := cg
      rw [h1] at h
      dsimp only at h
      obtain ⟨hcnot, hgrown⟩ := generateUnique_spec (rng 0) fuel 0 S c grown h1
      cases h2 : generateManyBlockIds (fun i => rng (i + 1)) fuel m grown with
      | none => rw [h2] at h; cases h
      | some rs =>
        obtain ⟨rest, finalIds2⟩ := rs
        rw [h2] at h
        obtain ⟨hts, hfs⟩ := Prod.mk.injEq .. ▸ Option.some.inj h
        obtain ⟨hlen, havoid, hnodup, hfinal⟩ :=
          ih (fun i => rng (i + 1)) fuel grown rest finalIds2 h2
        subst hts; subst hfs; subst hgrown
        refine ⟨by simp [hlen], ?_, ?_, ?_⟩
        · intro t ht
          rcases List.mem_cons.mp ht with h | h
          · subst h; exact hcnot
          · exact fun hmem => havoid t h (List.mem_cons_of_mem c hmem)
        · refine List.nodup_cons.mpr ⟨?_, hnodup⟩
          intro hmem
          exact havoid c hmem (List.mem_cons_self c S)
        · rw [hfinal]
          simp

/-- Claim C3: against a document whose lines already contain the token set
`documentBlockIds content`, a successful run of `n` shared-set generations
via `generateUniqueTaskBlockId` produces `n` tokens, none of which is among
the pre-existing document tokens, and the `n` tokens are pairwise
distinct. -/
theorem generateUnique_block_ids_fresh_and_distinct
    (rng : Nat → Nat → String) (fuel n : Nat) (content : String)
    (toks finalIds : List String)
    (h : generateManyBlockIds rng fuel n (documentBlockIds content) =
      some (toks, finalIds)) :
    toks.length = n ∧ (∀ t ∈ toks, t ∉ documentBlockIds content) ∧ toks.Nodup := by
  obtain ⟨h1, h2, h3, _⟩ :=
    generateMany_spec n rng fuel (documentBlockIds content) toks finalIds h
  exact ⟨h1, h2, h3⟩

/-- Witness for C3: two generations against a document holding tokens
`a`, `b`, `c`, `t-aaaaaa`; the first draw collides with `t-aaaaaa` and is
retried. -/
theorem generateUnique_block_ids_fresh_and_distinct_witness :
    (["t-cccccc", "t-dddddd"] : List String).length = 2 ∧
    (∀ t ∈ (["t-cccccc", "t-dddddd"] : List String),
      t ∉ documentBlockIds
        "- [ ] p  ^a\n- [ ] q  ^b\n- [ ] r  ^c\n- [ ] s  ^t-aaaaaa") ∧
    (["t-cccccc", "t-dddddd"] : List String).Nodup :=
  generateUnique_block_ids_fresh_and_distinct
    (fun i k => if i = 0 then (if k = 0 then "aaaaaa" else "cccccc") else "dddddd")
    5 2 "- [ ] p  ^a\n- [ ] q  ^b\n- [ ] r  ^c\n- [ ] s  ^t-aaaaaa"
    ["t-cccccc", "t-dddddd"]
    ["t-dddddd", "t-cccccc", "a", "b", "c", "t-aaaaaa"] (by decide)

/-- Claim C7: when every ranked id that resolves to a known task passes the
index-confirmation re-check, the orchestrator's embed list is exactly the
ranking-order filterMap over the ranked ids — one embed per ranked id whose
normalized form is a key of the known-task map, order preserved, unknown ids
skipped silently. -/
theorem buildTaskEmbeds_membership_filter (vaultPaths : List String)
    (cache : String → List String) (tasks : List TaskItem) :
    ∀ rankedIds : List String,
      allRankedIdsConfirmed vaultPaths cache tasks rankedIds = true →
      buildTaskEmbeds vaultPaths cache tasks rankedIds =
        rankedIds.filterMap (fun rawId =>
          (jsMapGet (tasks.map (fun t => (normalizeBlockIdS t.id, t)))
              (normalizeBlockIdS rawId)).map
            (fun task => taskEmbed task.note (normalizeBlockIdS rawId))) := by
  intro rankedIds hconf
  unfold allRankedIdsConfirmed at hconf
  rw [List.all_eq_true] at hconf
  unfold buildTaskEmbeds
  apply List.filterMap_congr
  intro rawId hmem
  have hr := hconf rawId hmem
  dsimp only at hr ⊢
  cases hm : jsMapGet (tasks.map (fun t => (normalizeBlockIdS t.id, t)))
      (normalizeBlockIdS rawId) with
  | none => rfl
  | some task =>
    rw [hm] at hr
    dsimp only at hr
    dsimp only
    rw [hr]
    rfl

/-- Witness for C7 at the claim's example: ranked ids `["x", "y", "z"]` with
only `"y"` known yield exactly one embed, for `"y"`. -/
theorem buildTaskEmbeds_membership_filter_witness :
    buildTaskEmbeds ["Work/n.md"]
      (fun p => if p = "Work/n.md" then ["y"] else [])
      [⟨"y", "Work/n.md"⟩] ["x", "y", "z"] = ["![[Work/n.md#^y]]"] := by
  have h := buildTaskEmbeds_membership_filter ["Work/n.md"]
    (fun p => if p = "Work/n.md" then ["y"] else [])
    [⟨"y", "Work/n.md"⟩] ["x", "y", "z"] (by decide)
  rw [h]
  decide

/-- Claim C8: on a successful response (and configured key), `callOpenAIRank`
returns at most `Math.max(0, maxTasks | 0)` ids, taken in order from the
response's `ranked_task_ids` array with each element coerced to a string —
and the result does not depend on the supplied task set, so the adapter
itself performs no membership filtering. -/
theorem callOpenAIRank_truncates_and_ignores_tasks
    (jsonParse : String → Option Json) (apiKey : String) (resp : RankResponse)
    (tasks tasks₂ : List TaskItem) (maxTasks : Int)
    (hkey : apiKey ≠ "") (hok : resp.ok = true) :
    ∃ ids : List String,
      callOpenAIRank jsonParse apiKey resp tasks maxTasks = Except.ok ids ∧
      ids.length ≤ jsSliceBound maxTasks ∧
      (∀ xs : List Json,
        jsGet (parsedOfContent jsonParse (contentOfResponse resp))
          "ranked_task_ids" = some (Json.arr xs) →
        ids = (xs.map jsString).take (jsSliceBound maxTasks)) ∧
      callOpenAIRank jsonParse apiKey resp tasks₂ maxTasks = Except.ok ids := by
  refine ⟨(rankedIdsOfJson (parsedOfContent jsonParse (contentOfResponse resp))).take
    (jsSliceBound maxTasks), ?_, ?_, ?_, ?_⟩
  · unfold callOpenAIRank
    rw [if_neg hkey, hok]
    simp
  · rw [List.length_take]
    exact min_le_left _ _
  · intro xs hxs
    unfold rankedIdsOfJson
    rw [hxs]
  · unfold callOpenAIRank
    rw [if_neg hkey, hok]
    simp

/-- Witness for C8 at a concrete response ranking three values (one a
number, exercising the string coercion) with `maxTasks = 2` and two different
task sets. -/
theorem callOpenAIRank_truncates_and_ignores_tasks_witness :
    ∃ ids : List String,
      callOpenAIRank
        (fun s => if s = "PAYLOAD" then
          some (Json.obj [("ranked_task_ids",
            Json.arr [Json.str "a", Json.num 7, Json.str "b"])]) else none)
        "sk"
        ⟨true, 200, "",
          some (Json.obj [("choices", Json.arr [Json.obj [("message",
            Json.obj [("content", Json.str "PAYLOAD")])]])])⟩
        [] 2 = Except.ok ids ∧
      ids.length ≤ jsSliceBound 2 ∧
      (∀ xs : List Json,
        jsGet (parsedOfContent
          (fun s => if s = "PAYLOAD" then
            some (Json.obj [("ranked_task_ids",
              Json.arr [Json.str "a", Json.num 7, Json.str "b"])]) else none)
          (contentOfResponse
            ⟨true, 200, "",
              some (Json.obj [("choices", Json.arr [Json.obj [("message",
                Json.obj [("content", Json.str "PAYLOAD")])]])])⟩))
          "ranked_task_ids" = some (Json.arr xs) →
        ids = (xs.map jsString).take (jsSliceBound 2)) ∧
      callOpenAIRank
        (fun s => if s = "PAYLOAD" then
          some (Json.obj [("ranked_task_ids",
            Json.arr [Json.str "a", Json.num 7, Json.str "b"])]) else none)
        "sk"
        ⟨true, 200, "",
          some (Json.obj [("choices", Json.arr [Json.obj [("message",
            Json.obj [("content", Json.str "PAYLOAD")])]])])⟩
        [⟨"zz", "n.md"⟩] 2 = Except.ok ids :=
  callOpenAIRank_truncates_and_ignores_tasks
    (fun s => if s = "PAYLOAD" then
      some (Json.obj [("ranked_task_ids",
        Json.arr [Json.str "a", Json.num 7, Json.str "b"])]) else none)
    "sk"
    ⟨true, 200, "",
      some (Json.obj [("choices", Json.arr [Json.obj [("message",
        Json.obj [("content", Json.str "PAYLOAD")])]])])⟩
    [] [⟨"zz", "n.md"⟩] 2 (by decide) rfl

/-- Helper: the trim of a character list is empty exactly when every
character is whitespace. -/
theorem jsTrimList_eq_nil_iff (cs : List Char) :
    jsTrimList cs = [] ↔ ∀ c ∈ cs, isJsWs c := by
  unfold jsTrimList
  rw [List.reverse_eq_nil_iff, List.dropWhile_eq_nil_iff]
  constructor
  · intro h c hc
    rcases List.mem_append.mp
      ((List.takeWhile_append_dropWhile (p := isJsWs) (l := cs)) ▸ hc) with h1 | h1
    · exact List.mem_takeWhile_imp h1
    · exact h c (List.mem_reverse.mpr h1)
  · intro h c hc
    exact h c ((List.dropWhile_sublist _).mem (List.mem_reverse.mp hc))

/-- Helper: a blank line is neither a horizontal rule nor a heading, hence
never terminates a section. -/
theorem isStopLine_of_blank (startDepth : Nat) (l : String)
    (h : isBlankLine l = true) : isStopLine startDepth l = false := by
  have hws : ∀ c ∈ l.data, isJsWs c := by
    apply (jsTrimList_eq_nil_iff l.data).mp
    unfold isBlankLine at h
    have h2 : jsTrim l = "" := of_decide_eq_true h
    unfold jsTrim at h2
    exact congrArg String.data h2
  have hhr : isHorizontalRule l = false := by
    unfold isHorizontalRule
    rw [(jsTrimList_eq_nil_iff l.data).mpr hws]
  have hhm : headingMatch l = none := by
    unfold headingMatch
    cases hd : l.data with
    | nil => simp
    | cons c rest =>
      have hcw : isJsWs c := hws c (hd ▸ List.mem_cons_self c rest)
      have hcne : ¬ (c = '#') := by
        intro hc
        subst hc
        simp [isJsWs] at hcw
      rw [List.takeWhile_cons_of_neg (by simpa using hcne)]
      simp
  unfold isStopLine
  rw [hhr, hhm]
  rfl

/-- Helper: once a non-blank line has been seen, the accumulation loop keeps
exactly the lines before the first section terminator. -/
theorem collectSection_seen_eq_takeWhile (startDepth : Nat) :
    ∀ ls : List String,
      collectSection startDepth ls true =
        ls.takeWhile (fun l => !isStopLine startDepth l) := by
  intro ls
  induction ls with
  | nil => rfl
  | cons l rest ih =>
    unfold collectSection
    by_cases hr : isHorizontalRule l = true
    · rw [if_pos hr]
      rw [List.takeWhile_cons_of_neg]
      simp [isStopLine, hr]
    · rw [if_neg hr]
      by_cases hh : ((headingMatch l).any fun m => m.1 ≤ startDepth) = true
      · rw [if_pos hh]
        rw [List.takeWhile_cons_of_neg]
        simp [isStopLine, hh]
      · rw [if_neg hh]
        have hstop : isStopLine startDepth l = false := by
          unfold isStopLine
          rw [Bool.not_eq_true] at hr hh
          simp [hr, hh]
        rw [List.takeWhile_cons_of_pos (by simp [hstop])]
        simp [ih]

/-- Helper: before any non-blank line has been seen, the loop additionally
skips the leading blank lines of the kept span. -/
theorem collectSection_unseen_eq (startDepth : Nat) :
    ∀ ls : List String,
      collectSection startDepth ls false =
        (ls.takeWhile (fun l => !isStopLine startDepth l)).dropWhile isBlankLine := by
  intro ls
  induction ls with
  | nil => rfl
  | cons l rest ih =>
    by_cases hstop : isStopLine startDepth l = true
    · have hr : isHorizontalRule l = true ∨
          ((headingMatch l).any fun m => m.1 ≤ startDepth) = true := by
        simpa [isStopLine] using hstop
      rw [List.takeWhile_cons_of_neg (by simp [hstop])]
      unfold collectSection
      rcases hr with hr | hh
      · rw [if_pos hr]
        rfl
      · by_cases hr2 : isHorizontalRule l = true
        · rw [if_pos hr2]
          rfl
        · rw [if_neg hr2, if_pos hh]
          rfl
    · rw [Bool.not_eq_true] at hstop
      have hor := hstop
      unfold isStopLine at hor
      rw [Bool.or_eq_false_iff] at hor
      obtain ⟨hr, hh⟩ := hor
      unfold collectSection
      rw [if_neg (by simp [hr]), if_neg (by simp [hh])]
      rw [List.takeWhile_cons_of_pos (by simp [hstop])]
      by_cases hb : isBlankLine l = true
      · rw [if_pos (by simp [hb])]
        rw [List.dropWhile_cons_of_pos hb]
        exact ih
      · rw [Bool.not_eq_true] at hb
        rw [if_neg (by simp [hb])]
        rw [List.dropWhile_cons_of_neg (by simp [hb])]
        rw [collectSection_seen_eq_takeWhile]

/-- Claim C5: the priority extractor returns the empty string when no heading
matches; when the first matching heading sits at line `start` with depth
`startDepth`, the result is exactly the lines after it up to (excluding) the
first horizontal rule or heading of depth ≤ `startDepth` — deeper headings do
not terminate the span — with leading and trailing blank lines trimmed and
the rest joined by newlines. -/
theorem extractPriorities_section_boundary (content desiredHeading : String) :
    (findFirstHeading desiredHeading (splitLines content) 0 = none →
      extractPrioritiesFromFile content desiredHeading = "") ∧
    (∀ start startDepth : Nat,
      findFirstHeading desiredHeading (splitLines content) 0 = some (start, startDepth) →
      extractPrioritiesFromFile content desiredHeading =
        joinLines (dropTrailingBlankLines (dropLeadingBlankLines
          (((splitLines content).drop (start + 1)).takeWhile
            (fun l => !isStopLine startDepth l))))) := by
  constructor
  · intro h
    unfold extractPrioritiesFromFile
    dsimp only
    rw [h]
  · intro start startDepth h
    unfold extractPrioritiesFromFile
    dsimp only
    rw [h]
    dsimp only
    rw [collectSection_unseen_eq]
    rfl

/-- Witness for C5 on a concrete document: the section for `Heading A`
includes the deeper `### Sub` heading and stops at the sibling
`## Heading B`. -/
theorem extractPriorities_section_boundary_witness :
    extractPrioritiesFromFile
      "## Heading A\ncontent\n### Sub\nmore\n## Heading B\nafter"
      "Heading A" = "content\n### Sub\nmore" := by
  have h := (extractPriorities_section_boundary
    "## Heading A\ncontent\n### Sub\nmore\n## Heading B\nafter"
    "Heading A").2 0 2 (by decide)
  rw [h]
  decide

end AiTaskPicker
